import Mathlib

/-!
Shallow embedding of the observable/reactivity core of skooma
(src/observable.js) and proofs about its specified properties.

Conventions used throughout:
* JavaScript identity comparison (a === b) on the values stored in an
  observable is modelled by decidable equality on an abstract value type.
* A property absent from a plain object reads as `undefined`; stores are
  association lists and reads return `Option` values, `none` standing for
  `undefined`.
* Microtask scheduling is modelled explicitly: deferred changes accumulate
  in an optional queue (`none` = no flush scheduled), and the flush step
  dispatches the accumulated batch.
-/

namespace Skooma

/-- Association-list lookup: the value of the first entry with the given
key, `none` when no entry has it (a JS Map `get`, or reading a missing
object property). -/
def alookup {κ β : Type} [DecidableEq κ] : List (κ × β) → κ → Option β
  | [], _ => none
  | (k, v) :: rest, p => if k = p then some v else alookup rest p

/-- Keys of an association list, in order. -/
def keysOf {κ β : Type} (l : List (κ × β)) : List κ := l.map Prod.fst

/-- Field projections used by MultiChangeEvent when it destructures
each element of its `changes` array as a record with fields `property`,
`from` and `to`.  For the well-formed change records produced by
`enqueue` these read the actual fields; for the raw values that
`ObservableObject.adopt`'s handler spreads into `emit` they all read
as `undefined`. -/
structure ChangeProj (α κ τ : Type) where
  propOf : α → κ
  fromOf : α → τ
  toOf : α → τ

variable {α κ τ : Type}

/-- Loop body of the `MultiChangeEvent.values` getter: for one change,
either push its `to` onto the existing list for its property, or create
the list `[from, to]` for a first-seen property. -/
def addChange [DecidableEq κ] (pr : ChangeProj α κ τ)
    (values : List (κ × List τ)) (c : α) : List (κ × List τ) :=
  match alookup values (pr.propOf c) with
  | some _ =>
    values.map fun kv => if kv.1 = pr.propOf c then (kv.1, kv.2 ++ [pr.toOf c]) else kv
  | none => values ++ [(pr.propOf c, [pr.fromOf c, pr.toOf c])]

/-- The `MultiChangeEvent.values` getter: insertion-ordered map from each
property to the list of its first `from` followed by every `to`, built by
folding the loop body over the change list. -/
def eventValues [DecidableEq κ] (pr : ChangeProj α κ τ) (changes : List α) :
    List (κ × List τ) :=
  changes.foldl (addChange pr) []

/-- The body of the `final` getter for one per-property value list:
keep the last value exactly when the first differs from the last
(`list[0] !== list[list.length-1]`). -/
def finalOfList [DecidableEq τ] (l : List τ) : Option τ :=
  match l.head?, l.getLast? with
  | some first, some last => if first = last then none else some last
  | _, _ => none

/-- The `MultiChangeEvent.final` getter: per property, the last value of
its list, but only when the first differs (by identity) from the last. -/
def eventFinal [DecidableEq κ] [DecidableEq τ] (pr : ChangeProj α κ τ)
    (changes : List α) : List (κ × τ) :=
  (eventValues pr changes).filterMap fun kv => (finalOfList kv.2).map fun t => (kv.1, t)

/-- The sublist of changes whose `property` field is `p`, in order. -/
def changesFor [DecidableEq κ] (pr : ChangeProj α κ τ) (changes : List α) (p : κ) :
    List α :=
  changes.filter fun c => decide (pr.propOf c = p)

/-- Denotation of the per-property value list: the first matching
change's `from` followed by every matching change's `to`. -/
def valuesSpec [DecidableEq κ] (pr : ChangeProj α κ τ) (changes : List α) (p : κ) :
    Option (List τ) :=
  match changesFor pr changes p with
  | [] => none
  | c :: cs => some (pr.fromOf c :: (c :: cs).map pr.toOf)

/-- Denotation of the final view at one property. -/
def finalSpec [DecidableEq κ] [DecidableEq τ] (pr : ChangeProj α κ τ)
    (changes : List α) (p : κ) : Option τ :=
  (valuesSpec pr changes p).bind finalOfList

theorem alookup_map_update {κ β : Type} [DecidableEq κ] (l : List (κ × β)) (k p : κ)
    (f : β → β) :
    alookup (l.map fun kv => if kv.1 = k then (kv.1, f kv.2) else kv) p =
      if k = p then (alookup l p).map f else alookup l p := by
  induction l with
  | nil => by_cases h : k = p <;> simp [alookup, h]
  | cons hd tl ih =>
    obtain ⟨k', v'⟩ := hd
    simp only [List.map_cons]
    by_cases hk : k' = k
    · rw [if_pos (show (k', v').1 = k from hk)]
      subst hk
      by_cases hp : k' = p
      · subst hp
        rw [if_pos rfl]
        simp [alookup, ih]
      · rw [if_neg (fun h : k' = p => hp h)]
        simp [alookup, ih, hp]
    · rw [if_neg (show ¬(k', v').1 = k from hk)]
      by_cases hp : k' = p
      · subst hp
        have hkp : ¬k = k' := fun h => hk h.symm
        rw [if_neg hkp]
        simp [alookup]
      · simp only [alookup]
        rw [if_neg hp, if_neg hp, ih]

theorem alookup_append_single {κ β : Type} [DecidableEq κ] (l : List (κ × β)) (k p : κ)
    (v : β) :
    alookup (l ++ [(k, v)]) p =
      match alookup l p with
      | some x => some x
      | none => if k = p then some v else none := by
  induction l with
  | nil => simp [alookup]
  | cons hd tl ih =>
    obtain ⟨k', v'⟩ := hd
    by_cases hp : k' = p <;> simp [alookup, hp, ih]

/-- Appending one change to the accumulator extends the accumulated value
lists in the expected way. -/
theorem alookup_addChange {α κ τ : Type} [DecidableEq κ] (pr : ChangeProj α κ τ)
    (values : List (κ × List τ)) (c : α) (p : κ) :
    alookup (addChange pr values c) p =
      if pr.propOf c = p then
        match alookup values p with
        | some l => some (l ++ [pr.toOf c])
        | none => some [pr.fromOf c, pr.toOf c]
      else alookup values p := by
  unfold addChange
  cases h : alookup values (pr.propOf c) with
  | none =>
    rw [alookup_append_single]
    by_cases hp : pr.propOf c = p
    · subst hp
      rw [h]
    · rw [if_neg hp]
      cases hv : alookup values p <;> simp [hp, hv]
  | some l =>
    rw [alookup_map_update values (pr.propOf c) p (fun t => t ++ [pr.toOf c])]
    by_cases hp : pr.propOf c = p
    · subst hp
      rw [h]
      simp
    · rw [if_neg hp, if_neg hp]

theorem addChange_of_some {α κ τ : Type} [DecidableEq κ] (pr : ChangeProj α κ τ)
    (values : List (κ × List τ)) (c : α) (l : List τ)
    (h : alookup values (pr.propOf c) = some l) :
    addChange pr values c =
      values.map fun kv =>
        if kv.1 = pr.propOf c then (kv.1, kv.2 ++ [pr.toOf c]) else kv := by
  unfold addChange
  rw [h]

theorem addChange_of_none {α κ τ : Type} [DecidableEq κ] (pr : ChangeProj α κ τ)
    (values : List (κ × List τ)) (c : α)
    (h : alookup values (pr.propOf c) = none) :
    addChange pr values c = values ++ [(pr.propOf c, [pr.fromOf c, pr.toOf c])] := by
  unfold addChange
  rw [h]

theorem changesFor_cons {α κ τ : Type} [DecidableEq κ] (pr : ChangeProj α κ τ)
    (c : α) (cs : List α) (p : κ) :
    changesFor pr (c :: cs) p =
      if pr.propOf c = p then c :: changesFor pr cs p else changesFor pr cs p := by
  by_cases hp : pr.propOf c = p <;> simp [changesFor, List.filter_cons, hp]

theorem valuesSpec_of_nil {α κ τ : Type} [DecidableEq κ] (pr : ChangeProj α κ τ)
    (changes : List α) (p : κ) (h : changesFor pr changes p = []) :
    valuesSpec pr changes p = none := by
  unfold valuesSpec
  rw [h]

theorem valuesSpec_of_cons {α κ τ : Type} [DecidableEq κ] (pr : ChangeProj α κ τ)
    (changes : List α) (p : κ) (c : α) (cs : List α)
    (h : changesFor pr changes p = c :: cs) :
    valuesSpec pr changes p = some (pr.fromOf c :: (c :: cs).map pr.toOf) := by
  unfold valuesSpec
  rw [h]

/-- Lookup through the whole fold, generalized over the starting
accumulator so the induction goes through. -/
def combineVals {α κ τ : Type} [DecidableEq κ] (pr : ChangeProj α κ τ) :
    Option (List τ) → List α → κ → Option (List τ)
  | some l, changes, p => some (l ++ (changesFor pr changes p).map pr.toOf)
  | none, changes, p => valuesSpec pr changes p

theorem alookup_foldl_addChange {α κ τ : Type} [DecidableEq κ] (pr : ChangeProj α κ τ)
    (changes : List α) :
    ∀ (acc : List (κ × List τ)) (p : κ),
      alookup (changes.foldl (addChange pr) acc) p = combineVals pr (alookup acc p) changes p := by
  induction changes with
  | nil =>
    intro acc p
    cases h : alookup acc p <;> simp [combineVals, changesFor, valuesSpec, h]
  | cons c cs ih =>
    intro acc p
    rw [List.foldl_cons, ih (addChange pr acc c) p]
    rw [alookup_addChange]
    by_cases hp : pr.propOf c = p
    · rw [if_pos hp]
      cases h : alookup acc p with
      | some l =>
        simp only [combineVals, changesFor_cons, if_pos hp, List.map_cons, List.append_assoc,
          List.singleton_append]
      | none =>
        rw [show combineVals pr (some [pr.fromOf c, pr.toOf c]) cs p =
            some ([pr.fromOf c, pr.toOf c] ++ (changesFor pr cs p).map pr.toOf) from rfl]
        rw [show combineVals pr none (c :: cs) p = valuesSpec pr (c :: cs) p from rfl]
        rw [valuesSpec_of_cons pr (c :: cs) p c (changesFor pr cs p)
          (by rw [changesFor_cons, if_pos hp])]
        simp
    · rw [if_neg hp]
      cases h : alookup acc p with
      | some l => simp only [combineVals, changesFor_cons, if_neg hp]
      | none =>
        rw [show combineVals pr none (c :: cs) p = valuesSpec pr (c :: cs) p from rfl,
          show combineVals pr none cs p = valuesSpec pr cs p from rfl]
        unfold valuesSpec
        rw [changesFor_cons, if_neg hp]

/-- Per-property lookup of the `values` view agrees with its denotation:
the first matching change's `from` followed by every matching `to`. -/
theorem alookup_eventValues {α κ τ : Type} [DecidableEq κ] (pr : ChangeProj α κ τ)
    (changes : List α) (p : κ) :
    alookup (eventValues pr changes) p = valuesSpec pr changes p := by
  rw [eventValues, alookup_foldl_addChange]
  rfl

theorem notmem_keys_of_alookup_none {κ β : Type} [DecidableEq κ] (l : List (κ × β))
    (p : κ) (h : alookup l p = none) : p ∉ keysOf l := by
  induction l with
  | nil => simp [keysOf]
  | cons hd tl ih =>
    obtain ⟨k, v⟩ := hd
    by_cases hk : k = p
    · rw [alookup, if_pos hk] at h
      exact absurd h (by simp)
    · rw [alookup, if_neg hk] at h
      simp only [keysOf, List.map_cons, List.mem_cons]
      rintro (he | he)
      · exact hk he.symm
      · exact ih h he

theorem keysOf_map_update {κ β : Type} [DecidableEq κ] (l : List (κ × β)) (k : κ)
    (f : β → β) :
    keysOf (l.map fun kv => if kv.1 = k then (kv.1, f kv.2) else kv) = keysOf l := by
  induction l with
  | nil => rfl
  | cons hd tl ih =>
    obtain ⟨k', v'⟩ := hd
    by_cases hk : k' = k
    · simp only [keysOf, List.map_cons, if_pos (show (k', v').1 = k from hk)]
      simpa [keysOf] using ih
    · simp only [keysOf, List.map_cons, if_neg (show ¬(k', v').1 = k from hk)]
      simpa [keysOf] using ih

theorem nodupKeys_addChange {α κ τ : Type} [DecidableEq κ] (pr : ChangeProj α κ τ)
    (values : List (κ × List τ)) (c : α) (h : (keysOf values).Nodup) :
    (keysOf (addChange pr values c)).Nodup := by
  cases hl : alookup values (pr.propOf c) with
  | some l =>
    rw [addChange_of_some pr values c l hl,
      keysOf_map_update values (pr.propOf c) (fun t => t ++ [pr.toOf c])]
    exact h
  | none =>
    rw [addChange_of_none pr values c hl]
    have hnot := notmem_keys_of_alookup_none values (pr.propOf c) hl
    simp only [keysOf, List.map_append, List.map_cons, List.map_nil]
    rw [List.nodup_append]
    refine ⟨h, List.nodup_singleton _, ?_⟩
    intro x hx hy
    simp only [List.mem_singleton] at hy
    subst hy
    exact hnot hx

theorem nodupKeys_eventValues {α κ τ : Type} [DecidableEq κ] (pr : ChangeProj α κ τ)
    (changes : List α) : (keysOf (eventValues pr changes)).Nodup := by
  rw [eventValues]
  have : ∀ acc : List (κ × List τ), (keysOf acc).Nodup →
      (keysOf (changes.foldl (addChange pr) acc)).Nodup := by
    induction changes with
    | nil => intro acc h; exact h
    | cons c cs ih =>
      intro acc h
      rw [List.foldl_cons]
      exact ih _ (nodupKeys_addChange pr acc c h)
  exact this [] (by simp [keysOf])

theorem alookup_filterMap_of_notmem {κ β γ : Type} [DecidableEq κ] (g : β → Option γ)
    (l : List (κ × β)) (p : κ) (h : p ∉ keysOf l) :
    alookup (l.filterMap fun kv => (g kv.2).map fun t => (kv.1, t)) p = none := by
  induction l with
  | nil => simp [alookup]
  | cons hd tl ih =>
    obtain ⟨k, v⟩ := hd
    simp only [keysOf, List.map_cons, List.mem_cons] at h
    push_neg at h
    cases hg : g v with
    | none =>
      rw [List.filterMap_cons_none (by simp [hg])]
      exact ih h.2
    | some t =>
      rw [@List.filterMap_cons_some (κ × β) (κ × γ)
        (fun kv => (g kv.2).map fun t => (kv.1, t)) (k, v) tl (k, t) (by simp [hg])]
      simp only [alookup]
      rw [if_neg (fun he : k = p => h.1 he.symm)]
      exact ih h.2

theorem alookup_filterMap_keyed {κ β γ : Type} [DecidableEq κ] (g : β → Option γ)
    (l : List (κ × β)) (p : κ) (h : (keysOf l).Nodup) :
    alookup (l.filterMap fun kv => (g kv.2).map fun t => (kv.1, t)) p =
      (alookup l p).bind g := by
  induction l with
  | nil => simp [alookup]
  | cons hd tl ih =>
    obtain ⟨k, v⟩ := hd
    simp only [keysOf, List.map_cons, List.nodup_cons] at h
    have hcons : ∀ q : κ, alookup ((k, v) :: tl) q = if k = q then some v else alookup tl q :=
      fun q => rfl
    by_cases hk : k = p
    · subst hk
      cases hg : g v with
      | some t =>
        rw [@List.filterMap_cons_some (κ × β) (κ × γ)
          (fun kv => (g kv.2).map fun t => (kv.1, t)) (k, v) tl (k, t) (by simp [hg])]
        rw [hcons k, if_pos rfl]
        simp [alookup, hg]
      | none =>
        rw [List.filterMap_cons_none (by simp [hg]), hcons k, if_pos rfl]
        rw [show (some v).bind g = g v from rfl, hg]
        exact alookup_filterMap_of_notmem g tl k h.1
    · cases hg : g v with
      | some t =>
        rw [@List.filterMap_cons_some (κ × β) (κ × γ)
          (fun kv => (g kv.2).map fun t => (kv.1, t)) (k, v) tl (k, t) (by simp [hg])]
        rw [hcons p, if_neg hk]
        simp only [alookup]
        rw [if_neg hk]
        exact ih h.2
      | none =>
        rw [List.filterMap_cons_none (by simp [hg]), hcons p, if_neg hk]
        exact ih h.2

/-- Per-property lookup of the `final` view agrees with its denotation. -/
theorem alookup_eventFinal {α κ τ : Type} [DecidableEq κ] [DecidableEq τ]
    (pr : ChangeProj α κ τ) (changes : List α) (p : κ) :
    alookup (eventFinal pr changes) p = finalSpec pr changes p := by
  rw [eventFinal, alookup_filterMap_keyed _ _ _ (nodupKeys_eventValues pr changes),
    alookup_eventValues]
  rfl

theorem getLastD_cons_self {β : Type} (a d : β) (l : List β) :
    (a :: l).getLastD d = l.getLastD a := by
  cases l <;> rfl

theorem getLast?_cons_eq {β : Type} (a : β) (l : List β) :
    (a :: l).getLast? = some (l.getLastD a) := by
  induction l generalizing a with
  | nil => rfl
  | cons b m ih =>
    rw [List.getLast?_cons_cons, ih b, getLastD_cons_self]

theorem getLastD_map_cons {β γ : Type} (f : β → γ) (c : β) (cs : List β) (d : γ) :
    (((c :: cs).map f).getLastD d) = f (cs.getLastD c) := by
  induction cs generalizing c d with
  | nil => rfl
  | cons b m ih =>
    rw [List.map_cons, getLastD_cons_self, ih b, getLastD_cons_self]

/-- The final view at a property, phrased the way the specification
phrases it: the last `to` among the property's recorded changes, kept
only when the first recorded `from` differs from it. -/
theorem finalSpec_firstLast {α κ τ : Type} [DecidableEq κ] [DecidableEq τ]
    (pr : ChangeProj α κ τ) (changes : List α) (p : κ) :
    finalSpec pr changes p =
      match changesFor pr changes p with
      | [] => none
      | c :: cs =>
        if pr.fromOf c = pr.toOf (cs.getLastD c) then none
        else some (pr.toOf (cs.getLastD c)) := by
  cases hc : changesFor pr changes p with
  | nil => rw [finalSpec, valuesSpec_of_nil pr changes p hc]; rfl
  | cons c cs =>
    rw [finalSpec, valuesSpec_of_cons pr changes p c cs hc]
    rw [show (some (pr.fromOf c :: (c :: cs).map pr.toOf)).bind finalOfList =
      finalOfList (pr.fromOf c :: (c :: cs).map pr.toOf) from rfl]
    unfold finalOfList
    rw [List.head?_cons, getLast?_cons_eq, getLastD_map_cons]

/-! Change records and the Observable base class. -/

/-- A change record as built by `Observable.enqueue`:
`\x7bproperty, from, to, mutation\x7d`. -/
structure Change (K V : Type) where
  property : K
  fromVal : V
  toVal : V
  mutation : Bool
deriving DecidableEq, Repr

/-- Projections reading the record fields, as destructuring a change
record does in the `values` getter. -/
def changeProj (K V : Type) : ChangeProj (Change K V) K V where
  propOf := Change.property
  fromOf := Change.fromVal
  toOf := Change.toVal

/-- The per-instance scheduling state of an `Observable`: its
configured mode and the pending deferred batch.  `queue = none` means no
flush microtask is scheduled; `queue = some q` means a flush of `q` is
pending. -/
structure ObsCore (K V : Type) where
  synchronous : Bool
  queue : Option (List (Change K V))
deriving DecidableEq, Repr

/-- Result of one `enqueue` call: the updated scheduling state, the
events dispatched synchronously during the call (each event is one
batch of change records), whether a flush microtask was newly
scheduled, and the boolean the call returns. -/
structure EnqueueResult (K V : Type) where
  core : ObsCore K V
  emittedNow : List (List (Change K V))
  scheduled : Bool
  accepted : Bool
deriving DecidableEq, Repr

/-- The `Observable.enqueue(property, from, to, mutation)` method.
`cancel` models the registered `synchronous` (pre-change) listeners:
`cancel change = true` when some listener calls `preventDefault`, which
makes `dispatchEvent` return `false`. -/
def Observable.enqueue {K V : Type} (cancel : Change K V → Bool) (core : ObsCore K V)
    (property : K) (fromVal toVal : V) (mutation : Bool) : EnqueueResult K V :=
  let change : Change K V := ⟨property, fromVal, toVal, mutation⟩
  if cancel change then
    ⟨core, [], false, false⟩
  else if core.synchronous then
    ⟨core, [[change]], false, true⟩
  else
    match core.queue with
    | none => ⟨⟨core.synchronous, some [change]⟩, [], true, true⟩
    | some q => ⟨⟨core.synchronous, some (q ++ [change])⟩, [], false, true⟩

/-- The flush microtask scheduled by `enqueue` in deferred mode:
`emit(...queue)` then clear the queue.  When no queue exists no
microtask was scheduled, so nothing is dispatched. -/
def flushMicrotask {K V : Type} (core : ObsCore K V) :
    ObsCore K V × List (List (Change K V)) :=
  match core.queue with
  | none => (⟨core.synchronous, none⟩, [])
  | some q => (⟨core.synchronous, none⟩, [q])

/-! ObservableValue. -/

/-- State of an `ObservableValue`: scheduling state plus the private
stored value.  Change records carry the plain value type. -/
structure OVState (V : Type) where
  core : ObsCore String V
  value : V
deriving DecidableEq, Repr

/-- Result of assigning to `ObservableValue.value`. -/
structure OVSetResult (V : Type) where
  state : OVState V
  emittedNow : List (List (Change String V))
  scheduled : Bool
  enqueueCalled : Bool
deriving DecidableEq, Repr

/-- The `ObservableValue.value` setter:
`if (this.enqueue("value", this.#value, value)) this.#value = value`.
It calls `enqueue` unconditionally (there is no comparison against the
current value) and commits only when the change is accepted. -/
def ObservableValue.setValue {V : Type} (cancel : Change String V → Bool)
    (s : OVState V) (v : V) : OVSetResult V :=
  let r := Observable.enqueue cancel s.core "value" s.value v false
  { state := { core := r.core, value := if r.accepted then v else s.value },
    emittedNow := r.emittedNow,
    scheduled := r.scheduled,
    enqueueCalled := true }

/-! ObservableObject. -/

/-- Reading a property of the proxy target: `target[prop]`, `none` when
the property is absent (JS `undefined`). -/
def storeGet {K V : Type} [DecidableEq K] (store : List (K × V)) (p : K) : Option V :=
  alookup store p

/-- Writing a property of the proxy target: `target[prop] = value`,
replacing an existing entry or appending a new one. -/
def storeSet {K V : Type} [DecidableEq K] (store : List (K × V)) (p : K) (v : V) :
    List (K × V) :=
  if (alookup store p).isSome then
    store.map fun kv => if kv.1 = p then (kv.1, v) else kv
  else
    store ++ [(p, v)]

/-- State of an `ObservableObject` holding plain (non-Observable)
values: scheduling state plus the backing store.  Because stored values
are not Observables, the `instanceof Observable` adoption branches of
the set trap never fire; they are modelled separately with the
adoption state.  Change records carry `Option V`, where `none` is the
`undefined` read from an absent property. -/
structure OOState (K V : Type) where
  core : ObsCore K (Option V)
  store : List (K × V)
deriving DecidableEq, Repr

/-- Result of one assignment through the `values` proxy. -/
structure OOSetResult (K V : Type) where
  state : OOState K V
  emittedNow : List (List (Change K (Option V)))
  scheduled : Bool
  accepted : Bool
  enqueueCalled : Bool
deriving DecidableEq, Repr

/-- The `set` trap of the `values` proxy of `ObservableObject`, for
non-Observable values: read the old value, accept silently when it is
identical to the new one, otherwise `enqueue` and commit only when the
change is accepted, returning whether the write was accepted. -/
def ObservableObject.valuesSet {K V : Type} [DecidableEq K] [DecidableEq V]
    (cancel : Change K (Option V) → Bool) (s : OOState K V) (prop : K) (value : V) :
    OOSetResult K V :=
  let old := storeGet s.store prop
  if old = some value then
    ⟨s, [], false, true, false⟩
  else
    let r := Observable.enqueue cancel s.core prop old (some value) false
    if r.accepted then
      ⟨⟨r.core, storeSet s.store prop value⟩, r.emittedNow, r.scheduled, true, true⟩
    else
      ⟨⟨r.core, s.store⟩, r.emittedNow, r.scheduled, false, true⟩

/-- Performing a sequence of writes through the `values` proxy within
one synchronous turn, collecting every event dispatched while the
writes run. -/
def runWrites {K V : Type} [DecidableEq K] [DecidableEq V]
    (cancel : Change K (Option V) → Bool) (s : OOState K V) :
    List (K × V) → OOState K V × List (List (Change K (Option V)))
  | [] => (s, [])
  | (k, v) :: ws =>
    let r := ObservableObject.valuesSet cancel s k v
    let rest := runWrites cancel r.state ws
    (rest.1, r.emittedNow ++ rest.2)

/-- One whole turn: perform the writes, then run the microtask
checkpoint (the scheduled flush, if any).  Returns the final state and
every change event dispatched, in order. -/
def runTurn {K V : Type} [DecidableEq K] [DecidableEq V]
    (cancel : Change K (Option V) → Bool) (s : OOState K V) (ws : List (K × V)) :
    OOState K V × List (List (Change K (Option V))) :=
  let w := runWrites cancel s ws
  let f := flushMicrotask w.1.core
  (⟨f.1, w.1.store⟩, w.2 ++ f.2)

/-- The change records a sequence of writes leaves in the batch when
none is cancelled: one record per write whose new value differs (by
identity) from the value stored at that moment. -/
def recordedChanges {K V : Type} [DecidableEq K] [DecidableEq V]
    (store : List (K × V)) : List (K × V) → List (Change K (Option V))
  | [] => []
  | (k, v) :: ws =>
    if storeGet store k = some v then recordedChanges store ws
    else ⟨k, storeGet store k, some v, false⟩ :: recordedChanges (storeSet store k v) ws

/-- The store a sequence of uncancelled writes leaves behind. -/
def applyWrites {K V : Type} [DecidableEq K] [DecidableEq V]
    (store : List (K × V)) : List (K × V) → List (K × V)
  | [] => store
  | (k, v) :: ws =>
    if storeGet store k = some v then applyWrites store ws
    else applyWrites (storeSet store k v) ws

/-- Queue contents after appending a list of records to an optional
queue, `none` only when nothing was ever enqueued. -/
def appendQueue {β : Type} : Option (List β) → List β → Option (List β)
  | none, [] => none
  | none, c :: cs => some (c :: cs)
  | some q, l => some (q ++ l)

theorem runWrites_deferred {K V : Type} [DecidableEq K] [DecidableEq V]
    (ws : List (K × V)) :
    ∀ (store : List (K × V)) (q : Option (List (Change K (Option V)))),
      runWrites (fun _ => false) ⟨⟨false, q⟩, store⟩ ws =
        (⟨⟨false, appendQueue q (recordedChanges store ws)⟩, applyWrites store ws⟩, []) := by
  induction ws with
  | nil =>
    intro store q
    cases q <;> simp [runWrites, recordedChanges, applyWrites, appendQueue]
  | cons w ws ih =>
    obtain ⟨k, v⟩ := w
    intro store q
    by_cases hold : storeGet store k = some v
    · rw [runWrites, show ObservableObject.valuesSet (fun _ => false)
          (⟨⟨false, q⟩, store⟩ : OOState K V) k v = ⟨⟨⟨false, q⟩, store⟩, [], false, true, false⟩
          from by rw [ObservableObject.valuesSet, if_pos hold]]
      rw [show recordedChanges store ((k, v) :: ws) = recordedChanges store ws from by
        rw [recordedChanges, if_pos hold]]
      rw [show applyWrites store ((k, v) :: ws) = applyWrites store ws from by
        rw [applyWrites, if_pos hold]]
      simpa using ih store q
    · rw [runWrites, show ObservableObject.valuesSet (fun _ => false)
          (⟨⟨false, q⟩, store⟩ : OOState K V) k v =
          ⟨⟨⟨false, appendQueue q [⟨k, storeGet store k, some v, false⟩]⟩,
            storeSet store k v⟩, [], q.isNone, true, true⟩ from ?_]
      · rw [show recordedChanges store ((k, v) :: ws) =
            ⟨k, storeGet store k, some v, false⟩ :: recordedChanges (storeSet store k v) ws
            from by rw [recordedChanges, if_neg hold]]
        rw [show applyWrites store ((k, v) :: ws) = applyWrites (storeSet store k v) ws
            from by rw [applyWrites, if_neg hold]]
        have := ih (storeSet store k v) (appendQueue q [⟨k, storeGet store k, some v, false⟩])
        rw [this]
        simp only [List.append_nil]
        have happ : ∀ l : List (Change K (Option V)),
            appendQueue (appendQueue q [⟨k, storeGet store k, some v, false⟩]) l =
              appendQueue q (⟨k, storeGet store k, some v, false⟩ :: l) := by
          intro l
          cases q <;> cases l <;> simp [appendQueue]
        rw [happ]
      · rw [ObservableObject.valuesSet, if_neg hold, Observable.enqueue]
        cases q <;> simp [appendQueue, Option.isNone]

/-! Subscription: Observable.subscribe. -/

/-- The property key `subscribe` listens on: `subscribe(prop, callback)`
uses `prop`, and `subscribe(callback)` recurses with `"value"`. -/
def subscribeProp (propArg : Option String) : String :=
  match propArg with
  | none => "value"
  | some p => p

/-- The change listener `subscribe` registers on the `change` event,
with its abort state: the listener reads `final` and calls the callback
with `final.get(prop)` exactly when `final.has(prop)`. -/
structure ChangeListener where
  prop : String
  aborted : Bool
deriving DecidableEq, Repr

/-- What one dispatched change event makes the registered listener pass
to the callback (`none` when the callback is not called). -/
def ChangeListener.onChange {V : Type} [DecidableEq V] (l : ChangeListener)
    (batch : List (Change String V)) : Option V :=
  if l.aborted then none else alookup (eventFinal (changeProj String V) batch) l.prop

/-- The function `subscribe` returns aborts the listener's controller. -/
def ChangeListener.unsubscribe (l : ChangeListener) : ChangeListener :=
  { l with aborted := true }

/-- Every value the callback receives across a subscription's life:
the immediate synchronous call with the current value first (made
before `subscribe` returns), then one call per dispatched batch whose
final view has an entry for the listened property. -/
def subscribeCalls {V : Type} [DecidableEq V] (current : V) (l : ChangeListener)
    (batches : List (List (Change String V))) : List V :=
  current :: batches.filterMap l.onChange

/-! Adoption of nested Observables: ObservableObject.adopt and disown. -/

/-- A change handler created by `adopt`: closures are distinguished by
identity (`id`, fresh per `adopt` call) and capture the property key
they announce. -/
structure Handler (K : Type) where
  id : Nat
  prop : K
deriving DecidableEq, Repr

/-- The nested-subscription bookkeeping of an `ObservableObject`:
`nested` models the private map `#nested : Map<Observable, Map<String,
Function>>` (nested Observables identified by `Nat` ids), `listeners`
the `change`-event listener lists of the nested Observables (pairs of
observable id and registered handler), `nextId` the supply of fresh
closure identities. -/
structure AdoptState (K : Type) where
  nested : List (Nat × List (K × Handler K))
  listeners : List (Nat × Handler K)
  nextId : Nat
deriving DecidableEq, Repr

/-- An `ObservableObject` that has adopted nothing yet. -/
def AdoptState.empty (K : Type) : AdoptState K := ⟨[], [], 0⟩

/-- Map update for the handler buckets: replace the entry or append
it, as `Map.set` does. -/
def mapSet {κ β : Type} [DecidableEq κ] (m : List (κ × β)) (k : κ) (v : β) :
    List (κ × β) :=
  if (alookup m k).isSome then m.map fun kv => if kv.1 = k then (kv.1, v) else kv
  else m ++ [(k, v)]

/-- Map deletion, as `Map.delete`. -/
def mapDelete {κ β : Type} [DecidableEq κ] (m : List (κ × β)) (k : κ) : List (κ × β) :=
  m.filter fun kv => decide (kv.1 ≠ k)

/-- `ObservableObject.adopt(prop, observable)`: fetch the handler bucket
for the observable, creating it if absent; create a fresh handler
closure capturing `prop`; store it in the bucket under `prop` and
register it as a `change` listener on the nested observable. -/
def AdoptState.adopt {K : Type} [DecidableEq K] (s : AdoptState K) (prop : K)
    (obs : Nat) : AdoptState K :=
  let handlers := (alookup s.nested obs).getD []
  let handler : Handler K := ⟨s.nextId, prop⟩
  { nested := mapSet s.nested obs (mapSet handlers prop handler),
    listeners := s.listeners ++ [(obs, handler)],
    nextId := s.nextId + 1 }

/-- `ObservableObject.disown(prop, observable)`: reads the handler bucket
(`#nested.get(observable)`); when the observable was never adopted the
bucket is `undefined` and `handlers.get(prop)` throws a `TypeError`,
modelled as the `error` branch.  Otherwise remove the listener, delete
the property's entry, and drop the whole bucket when it became empty. -/
def AdoptState.disown {K : Type} [DecidableEq K] (s : AdoptState K) (prop : K)
    (obs : Nat) : Except String (AdoptState K) :=
  match alookup s.nested obs with
  | none => .error "TypeError"
  | some handlers =>
    let listeners :=
      match alookup handlers prop with
      | some h => s.listeners.eraseP fun l => decide (l = (obs, h))
      | none => s.listeners
    let handlers := mapDelete handlers prop
    if handlers.length = 0 then
      .ok { s with nested := mapDelete s.nested obs, listeners := listeners }
    else
      .ok { s with nested := mapSet s.nested obs handlers, listeners := listeners }

/-- The raw values the adoption handler spreads into `emit`:
`emit(prop, observable, observable, \x7bobservable: true\x7d)`.  None of them
is a change record, so destructuring `property`, `from` and `to` from
them yields `undefined`. -/
inductive EmitArg (K : Type) where
  | rawKey : K → EmitArg K
  | rawObs : Nat → EmitArg K
  | rawTag : EmitArg K
deriving DecidableEq, Repr

/-- Destructuring `\x7bproperty, from, to\x7d` from the raw emit arguments:
every projection reads `undefined` because none of them has these
fields. -/
def emitArgProj (K : Type) : ChangeProj (EmitArg K) (Option K) (Option Nat) where
  propOf := fun _ => none
  fromOf := fun _ => none
  toOf := fun _ => none

/-- The parent-side `emit` calls caused by one flushed change event of
the nested observable `obs`: each registered listener for `obs` fires in
registration order, and each handler calls
`emit(prop, observable, observable, \x7bobservable: true\x7d)` with the prop
it captured, so each dispatches one `MultiChangeEvent` whose `changes`
array is that raw argument list. -/
def fireNestedChange {K : Type} (s : AdoptState K) (obs : Nat) :
    List (List (EmitArg K)) :=
  (s.listeners.filter fun l => decide (l.1 = obs)).map fun l =>
    [.rawKey l.2.prop, .rawObs obs, .rawObs obs, .rawTag]

/-! ObservableElement. -/

/-- The private field `#changedValue` of `ObservableElement`: it is
initialised to the literal `false` and reset to `false` by the flush
microtask, and otherwise holds a tracked value. -/
inductive ChangedValue (V : Type) where
  | flagFalse : ChangedValue V
  | val : V → ChangedValue V
deriving DecidableEq, Repr

/-- JavaScript truthiness of `#changedValue`, parameterised by the
truthiness of the value type. -/
def ChangedValue.truthy {V : Type} (truthyV : V → Bool) : ChangedValue V → Bool
  | .flagFalse => false
  | .val v => truthyV v

/-- State of an `ObservableElement`: mode, the tracked `#value` and
`#changedValue`. -/
structure OEState (V : Type) where
  synchronous : Bool
  value : V
  changedValue : ChangedValue V
deriving DecidableEq, Repr

/-- An element of the `changes` array of the events `ObservableElement`
dispatches: the two-element array `["value", x]` (not a change record;
destructuring `property`, `from` and `to` from an array yields
`undefined`). -/
inductive OEEventArg (V : Type) where
  | arr : String → ChangedValue V → OEEventArg V
deriving DecidableEq, Repr

/-- Destructuring a change record from an array value: all fields are
`undefined`. -/
def oeArgProj (V : Type) : ChangeProj (OEEventArg V) (Option String) (Option V) where
  propOf := fun _ => none
  fromOf := fun _ => none
  toOf := fun _ => none

/-- Result of one `update` call: the new state, the events dispatched
synchronously, and whether a flush microtask was queued. -/
structure OEUpdateResult (V : Type) where
  state : OEState V
  dispatched : List (List (OEEventArg V))
  queuedFlush : Bool
deriving DecidableEq, Repr

/-- The `ObservableElement.update` method, receiving the value the
extractor read from the target (`current = #getValue(this[target])`).
If the comparator holds nothing happens; otherwise `#value` is set and
the event is either dispatched at once (synchronous) or a flush
microtask is queued unless `#changedValue` is already truthy. -/
def OEState.update {V : Type} (truthyV : V → Bool) (equal : V → V → Bool)
    (s : OEState V) (current : V) : OEUpdateResult V :=
  if equal s.value current then
    ⟨s, [], false⟩
  else
    let s1 : OEState V := { s with value := current }
    if s1.synchronous then
      ⟨s1, [[.arr "value" (.val current)]], false⟩
    else
      if (s1.changedValue.truthy truthyV) = false then
        ⟨{ s1 with changedValue := .val current }, [], true⟩
      else
        ⟨s1, [], false⟩

/-- The flush microtask queued by a deferred `update`: it resets
`#changedValue` to `false` first and then dispatches
`new MultiChangeEvent(["value", this.#changedValue])`, which therefore
carries the literal `false`, not the recorded value. -/
def OEState.flushChanged {V : Type} (s : OEState V) :
    OEState V × List (List (OEEventArg V)) :=
  let s1 : OEState V := { s with changedValue := .flagFalse }
  (s1, [[.arr "value" s1.changedValue]])

/-! ObservableComposition, in the reference scenario of the spec:
sources a = ObservableValue(1) and b = ObservableValue(10), both with
default options (deferred), composed through (x, y) => x + y, with one
subscriber on the composition.  The single JS event loop's microtask
queue is modelled explicitly as a task list. -/

/-- The microtasks that can be pending in the scenario: the flush of
a's change queue, the composition's scheduled `update`, and the flush
of the composition's own change queue. -/
inductive CTask where
  | flushA : CTask
  | updateC : CTask
  | flushC : CTask
deriving DecidableEq, Repr

/-- Whole-scenario state.  The composition's `#value` starts as the
options object passed to `super(options)` (not an `Int`), hence
`cVal : Option Int` with `none` for that initial non-numeric value. -/
structure CompState where
  aVal : Int
  bVal : Int
  aQueue : Option (List (Change String Int))
  cVal : Option Int
  cQueue : Option (List (Change String (Option Int)))
  cMicro : Bool
  tasks : List CTask
  subscribed : Bool
  notes : List (Option Int)
deriving DecidableEq, Repr

/-- Dispatching a change event on the composition: the subscriber's
listener runs when registered, and calls the callback with
`final.get("value")` exactly when `final.has("value")`. -/
def dispatchCChange (s : CompState) (chs : List (Change String (Option Int))) :
    CompState :=
  if s.subscribed then
    match alookup (eventFinal (changeProj String (Option Int)) chs) "value" with
    | some v => { s with notes := s.notes ++ [v] }
    | none => s
  else s

/-- `ObservableComposition.update()`: recompute the value from the
sources, build the change record, assign `this.value` (running the
inherited `ObservableValue` setter, whose `enqueue` pushes the same
record on the composition's deferred queue and schedules its flush if
none is pending), then `this.emit(change)` dispatches the built record
immediately. -/
def cUpdate (s : CompState) : CompState :=
  let value := s.aVal + s.bVal
  let change : Change String (Option Int) := ⟨"value", s.cVal, some value, false⟩
  let s1 :=
    match s.cQueue with
    | none => { s with cQueue := some [change], tasks := s.tasks ++ [CTask.flushC] }
    | some q => { s with cQueue := some (q ++ [change]) }
  let s2 := { s1 with cVal := some value }
  dispatchCChange s2 [change]

/-- `scheduleUpdate` in deferred mode: queue at most one `update`
microtask per window. -/
def cScheduleUpdate (s : CompState) : CompState :=
  if s.cMicro then s
  else { s with tasks := s.tasks ++ [CTask.updateC], cMicro := true }

/-- `a.value = v`: the `ObservableValue` setter enqueues unconditionally
(no pre-change listener cancels in this scenario), scheduling a's flush
when none is pending, and commits the value. -/
def aSetValue (s : CompState) (v : Int) : CompState :=
  let change : Change String Int := ⟨"value", s.aVal, v, false⟩
  let s1 :=
    match s.aQueue with
    | none => { s with aQueue := some [change], tasks := s.tasks ++ [CTask.flushA] }
    | some q => { s with aQueue := some (q ++ [change]) }
  { s1 with aVal := v }

/-- Running one microtask.  Flushing a dispatches a's change event,
whose only listener is the composition's `scheduleUpdate` closure; the
composition's scheduled microtask clears its flag and runs `update`;
flushing the composition emits its queued batch to the subscriber. -/
def runCTask (s : CompState) : CTask → CompState
  | .flushA => cScheduleUpdate { s with aQueue := none }
  | .updateC => cUpdate { s with cMicro := false }
  | .flushC => dispatchCChange { s with cQueue := none } (s.cQueue.getD [])

/-- Run the microtask queue to completion (with fuel). -/
def drainTasks : Nat → CompState → CompState
  | 0, s => s
  | n + 1, s =>
    match s.tasks with
    | [] => s
    | t :: rest => drainTasks n (runCTask { s with tasks := rest } t)

/-- State right after `compose((x, y) => x + y)(a, b)` returns: the
constructor registered the `scheduleUpdate` listeners on both sources
and ran `update()` once, eagerly. -/
def compInit : CompState :=
  cUpdate
    { aVal := 1, bVal := 10, aQueue := none, cVal := none, cQueue := none,
      cMicro := false, tasks := [], subscribed := false, notes := [] }

/-- `c.subscribe(cb)`: registers the change listener and immediately
calls `cb(this.value)` before returning. -/
def subscribeC (s : CompState) : CompState :=
  { s with subscribed := true, notes := s.notes ++ [s.cVal] }

/-- The scenario state after construction has settled (the
construction-time flush has drained) and the subscriber has attached. -/
def compAfterSettle : CompState := subscribeC (drainTasks 8 compInit)

/-- The state immediately after `a.value = 2` returns, before any
microtask runs. -/
def compMid : CompState := aSetValue compAfterSettle 2

/-- The scenario state after `a.value = 2` and the microtask queue has
drained. -/
def compScenario : CompState := drainTasks 8 compMid

/-! ProxiedObservableValue with default (identity) transforms over an
ObservableObject backend, as produced by `proxy("x")`. -/

/-- Reading `value` of the projection: `this.get(this.#values[this.#prop])`
with the default identity `get`, i.e. the backend's currently stored
value for the property. -/
def ProxiedObservableValue.getValue {K V : Type} [DecidableEq K] (s : OOState K V)
    (p : K) : Option V :=
  storeGet s.store p

/-- Writing `value` of the projection:
`this.#values[this.#prop] = this.set(value)` with the default identity
`set`, which runs the backend's `values` set trap. -/
def ProxiedObservableValue.setThrough {K V : Type} [DecidableEq K] [DecidableEq V]
    (cancel : Change K (Option V) → Bool) (s : OOState K V) (p : K) (v : V) :
    OOSetResult K V :=
  ObservableObject.valuesSet cancel s p v

/-- One write through the projection followed by the microtask
checkpoint, observing the events the backend dispatches. -/
def pvWriteTurn {K V : Type} [DecidableEq K] [DecidableEq V]
    (cancel : Change K (Option V) → Bool) (s : OOState K V) (p : K) (v : V) :
    OOState K V × List (List (Change K (Option V))) :=
  runTurn cancel s [(p, v)]

/-- Unfolding `runTurn` (its body is a pair of lets). -/
theorem runTurn_eq {K V : Type} [DecidableEq K] [DecidableEq V]
    (cancel : Change K (Option V) → Bool) (s : OOState K V) (ws : List (K × V)) :
    runTurn cancel s ws =
      (⟨(flushMicrotask (runWrites cancel s ws).1.core).1,
        (runWrites cancel s ws).1.store⟩,
       (runWrites cancel s ws).2 ++ (flushMicrotask (runWrites cancel s ws).1.core).2) :=
  rfl

/-- Writing a property and reading it back yields the written value. -/
theorem storeGet_storeSet_self {K V : Type} [DecidableEq K]
    (store : List (K × V)) (p : K) (v : V) :
    storeGet (storeSet store p v) p = some v := by
  unfold storeGet storeSet
  by_cases h : (alookup store p).isSome
  · rw [if_pos h, alookup_map_update store p p (fun _ => v), if_pos rfl]
    obtain ⟨x, hx⟩ := Option.isSome_iff_exists.mp h
    rw [hx]
    rfl
  · rw [if_neg h, alookup_append_single]
    rw [Option.not_isSome_iff_eq_none.mp h]
    simp

/-! Claim theorems. -/

/-- C1, counterexample: the claim asserts that every sequence of writes
to distinct properties of a deferred ObservableObject within one turn
dispatches exactly one change event; but a single write of the value
already stored (here `a = 1` when `a` is `1`) is accepted by the set
trap without enqueueing anything, so no flush is scheduled and zero
change events are dispatched. -/
theorem C1_noop_turn_counterexample :
    (runTurn (fun _ => false)
      (⟨⟨false, none⟩, [("a", (1 : Nat))]⟩ : OOState String Nat) [("a", 1)]).2 = [] ∧
    ¬(runTurn (fun _ => false)
      (⟨⟨false, none⟩, [("a", (1 : Nat))]⟩ : OOState String Nat) [("a", 1)]).2.length = 1 := by
  decide

/-- C1, amended: for every sequence of uncancelled writes within one
synchronous turn on a deferred ObservableObject with no pending batch,
provided at least one write records a change (its value differs by
identity from the stored one), exactly one change event is dispatched,
at the microtask checkpoint, carrying exactly the recorded changes; the
store holds the committed writes; and the event's final view maps
exactly those properties whose first recorded `from` differs by
identity from their last recorded `to`, each to that last `to` — in
particular a property whose first `from` equals its last `to` (written
away and back) has no entry. -/
theorem C1_deferred_turn {K V : Type} [DecidableEq K] [DecidableEq V]
    (store : List (K × V)) (ws : List (K × V))
    (h : recordedChanges store ws ≠ []) :
    (runTurn (fun _ => false) (⟨⟨false, none⟩, store⟩ : OOState K V) ws).2 =
      [recordedChanges store ws] ∧
    (runTurn (fun _ => false) (⟨⟨false, none⟩, store⟩ : OOState K V) ws).1.store =
      applyWrites store ws ∧
    (∀ p : K,
      alookup (eventFinal (changeProj K (Option V)) (recordedChanges store ws)) p =
        match changesFor (changeProj K (Option V)) (recordedChanges store ws) p with
        | [] => none
        | c :: cs =>
          if c.fromVal = (cs.getLastD c).toVal then none
          else some ((cs.getLastD c).toVal)) ∧
    (∀ (p : K) (c : Change K (Option V)) (cs : List (Change K (Option V))),
      changesFor (changeProj K (Option V)) (recordedChanges store ws) p = c :: cs →
      c.fromVal = (cs.getLastD c).toVal →
      alookup (eventFinal (changeProj K (Option V)) (recordedChanges store ws)) p = none) := by
  obtain ⟨c0, cs0, hrec⟩ : ∃ c0 cs0, recordedChanges store ws = c0 :: cs0 := by
    cases hr : recordedChanges store ws with
    | nil => exact absurd hr h
    | cons c0 cs0 => exact ⟨c0, cs0, rfl⟩
  have hrw := runWrites_deferred ws store none
  have hfinal : ∀ p : K,
      alookup (eventFinal (changeProj K (Option V)) (recordedChanges store ws)) p =
        match changesFor (changeProj K (Option V)) (recordedChanges store ws) p with
        | [] => none
        | c :: cs =>
          if c.fromVal = (cs.getLastD c).toVal then none
          else some ((cs.getLastD c).toVal) := by
    intro p
    rw [alookup_eventFinal, finalSpec_firstLast]
    cases changesFor (changeProj K (Option V)) (recordedChanges store ws) p with
    | nil => rfl
    | cons c cs => rfl
  refine ⟨?_, ?_, hfinal, ?_⟩
  · rw [runTurn_eq, hrw]
    rw [hrec]
    rfl
  · rw [runTurn_eq, hrw]
  · intro p c cs hcs heq
    rw [hfinal p, hcs]
    simp [heq]

/-- C1, witness for the amended theorem at a concrete input: store
`\x7ba: 1\x7d`, writes `a = 2` then `b = 3` in one turn. -/
theorem C1_deferred_turn_witness :
    (runTurn (fun _ => false)
      (⟨⟨false, none⟩, [("a", (1 : Nat))]⟩ : OOState String Nat) [("a", 2), ("b", 3)]).2 =
      [recordedChanges [("a", (1 : Nat))] [("a", 2), ("b", 3)]] :=
  (C1_deferred_turn [("a", (1 : Nat))] [("a", 2), ("b", 3)] (by decide)).1

/-- C2, counterexample: the claim asserts that assigning the currently
stored value to an ObservableValue triggers no call to `enqueue` and no
emit; but the `value` setter calls `enqueue` unconditionally, and in
synchronous mode this dispatches a change event carrying the record
`\x7bvalue, 0, 0\x7d`. -/
theorem C2_observablevalue_counterexample :
    (ObservableValue.setValue (fun _ => false)
      (⟨⟨true, none⟩, (0 : Nat)⟩ : OVState Nat) 0).enqueueCalled = true ∧
    ¬(ObservableValue.setValue (fun _ => false)
      (⟨⟨true, none⟩, (0 : Nat)⟩ : OVState Nat) 0).emittedNow = [] := by
  decide

/-- C2, amended: writing the stored value to an ObservableObject
property is a silent no-op (the set trap accepts without calling
`enqueue`, emitting, or scheduling anything, and the state is
unchanged); but an ObservableValue's setter always calls `enqueue`, and
(synchronous mode, no cancelling listener) an event carrying the record
`\x7bvalue, v, v\x7d` is dispatched — its final view has no entry for
`"value"`, so no subscriber callback runs, and the stored value is
unchanged. -/
theorem C2_idempotent_writes {K V : Type} [DecidableEq K] [DecidableEq V]
    (cancel : Change K (Option V) → Bool) (s : OOState K V) (p : K) (v : V)
    (hcur : storeGet s.store p = some v)
    (cancelV : Change String V → Bool) (ov : OVState V)
    (hsync : ov.core.synchronous = true)
    (hnc : cancelV ⟨"value", ov.value, ov.value, false⟩ = false) :
    ObservableObject.valuesSet cancel s p v = ⟨s, [], false, true, false⟩ ∧
    (ObservableValue.setValue cancelV ov ov.value).enqueueCalled = true ∧
    (ObservableValue.setValue cancelV ov ov.value).emittedNow =
      [[⟨"value", ov.value, ov.value, false⟩]] ∧
    alookup (eventFinal (changeProj String V)
      [⟨"value", ov.value, ov.value, false⟩]) "value" = none ∧
    (ObservableValue.setValue cancelV ov ov.value).state.value = ov.value := by
  refine ⟨?_, rfl, ?_, ?_, ?_⟩
  · rw [ObservableObject.valuesSet]
    rw [if_pos hcur]
  · rw [ObservableValue.setValue, Observable.enqueue]
    simp only [hnc, Bool.false_eq_true, if_false, hsync, if_true]
  · rw [alookup_eventFinal, finalSpec_firstLast]
    simp [changesFor, changeProj]
  · rw [ObservableValue.setValue]
    simp only []
    split <;> rfl

/-- C2, witness for the amended theorem at a concrete input: object
store `\x7bx: 5\x7d` written with `x = 5`, and an ObservableValue holding `7`
written with `7`. -/
theorem C2_idempotent_writes_witness :
    ObservableObject.valuesSet (fun _ => false)
      (⟨⟨false, none⟩, [("x", (5 : Nat))]⟩ : OOState String Nat) "x" 5 =
      ⟨⟨⟨false, none⟩, [("x", 5)]⟩, [], false, true, false⟩ :=
  (C2_idempotent_writes (fun _ => false) ⟨⟨false, none⟩, [("x", (5 : Nat))]⟩ "x" 5
    (by decide) (fun _ => false) (⟨⟨true, none⟩, (7 : Nat)⟩ : OVState Nat)
    (by decide) (by decide)).1

/-- C3: subscribe invokes the callback synchronously exactly once with
the observable's current value before returning (also when no change
ever occurs), `subscribe(callback)` defaults the property to `"value"`,
each flushed batch afterwards produces exactly one further call when
and only when the batch's final view has an entry for the property
(carrying that net final value, characterised as the last recorded `to`
when it differs from the first recorded `from`), and the returned
function unsubscribes, after which no batch produces a call. -/
theorem C3_subscribe_contract {V : Type} [DecidableEq V] (current : V) (p : String)
    (batches : List (List (Change String V))) :
    subscribeProp none = "value" ∧
    subscribeProp (some p) = p ∧
    subscribeCalls current ⟨p, false⟩ [] = [current] ∧
    (subscribeCalls current ⟨p, false⟩ batches).head? = some current ∧
    subscribeCalls current ⟨p, false⟩ batches =
      current :: batches.filterMap
        (fun b => alookup (eventFinal (changeProj String V) b) p) ∧
    (∀ b : List (Change String V),
      ChangeListener.onChange ⟨p, false⟩ b = finalSpec (changeProj String V) b p) ∧
    subscribeCalls current (ChangeListener.unsubscribe ⟨p, false⟩) batches = [current] := by
  have honc : ChangeListener.onChange (⟨p, false⟩ : ChangeListener) =
      fun b : List (Change String V) => alookup (eventFinal (changeProj String V) b) p := by
    funext b
    rw [ChangeListener.onChange]
    simp
  refine ⟨rfl, rfl, rfl, rfl, ?_, ?_, ?_⟩
  · rw [subscribeCalls, honc]
  · intro b
    rw [honc]
    exact alookup_eventFinal (changeProj String V) b p
  · rw [subscribeCalls]
    have : ChangeListener.onChange (ChangeListener.unsubscribe ⟨p, false⟩) =
        fun _ : List (Change String V) => (none : Option V) := by
      funext b
      rw [ChangeListener.onChange]
      simp [ChangeListener.unsubscribe]
    rw [this]
    simp

/-- C4: when a pre-change (synchronous) listener cancels the event,
`enqueue` returns false and neither queues nor emits anything and the
scheduling state is untouched; the ObservableObject set trap then
leaves the backing store unchanged and reports non-acceptance; the
ObservableValue setter keeps its previous value; and when no listener
cancels, `enqueue` returns true. -/
theorem C4_cancel_rejects {K V : Type} [DecidableEq K] [DecidableEq V]
    (cancel : Change K (Option V) → Bool) (s : OOState K V) (p : K) (v : V)
    (hdiff : ¬storeGet s.store p = some v)
    (hc : cancel ⟨p, storeGet s.store p, some v, false⟩ = true)
    (cancelV : Change String V → Bool) (ov : OVState V) (w : V)
    (hcv : cancelV ⟨"value", ov.value, w, false⟩ = true) :
    Observable.enqueue cancel s.core p (storeGet s.store p) (some v) false =
      ⟨s.core, [], false, false⟩ ∧
    ObservableObject.valuesSet cancel s p v =
      ⟨⟨s.core, s.store⟩, [], false, false, true⟩ ∧
    (ObservableValue.setValue cancelV ov w).state.value = ov.value ∧
    (ObservableValue.setValue cancelV ov w).emittedNow = [] ∧
    (∀ (cancel2 : Change K (Option V) → Bool) (core : ObsCore K (Option V))
        (q : K) (f t : Option V),
      cancel2 ⟨q, f, t, false⟩ = false →
      (Observable.enqueue cancel2 core q f t false).accepted = true) := by
  have henq : Observable.enqueue cancel s.core p (storeGet s.store p) (some v) false =
      ⟨s.core, [], false, false⟩ := by
    rw [Observable.enqueue]
    simp only [hc, if_true]
  refine ⟨henq, ?_, ?_, ?_, ?_⟩
  · rw [ObservableObject.valuesSet]
    rw [if_neg hdiff]
    simp only [henq]
    rfl
  · rw [ObservableValue.setValue, Observable.enqueue]
    simp only [hcv, if_true]
    rfl
  · rw [ObservableValue.setValue, Observable.enqueue]
    simp only [hcv, if_true]
  · intro cancel2 core q f t hnc
    rw [Observable.enqueue]
    simp only [hnc, Bool.false_eq_true, if_false]
    by_cases hs : core.synchronous
    · simp only [hs, if_true]
    · simp only [hs, Bool.false_eq_true, if_false]
      cases core.queue <;> rfl

/-- C4, witness at a concrete input: store `\x7bx: 0\x7d`, a listener that
cancels changes to `"x"`, the rejected write `x = 1`; and an
ObservableValue holding `4` whose write of `9` is cancelled. -/
theorem C4_cancel_rejects_witness :
    ObservableObject.valuesSet (fun c => decide (c.property = "x"))
      (⟨⟨false, none⟩, [("x", (0 : Nat))]⟩ : OOState String Nat) "x" 1 =
      ⟨⟨⟨false, none⟩, [("x", 0)]⟩, [], false, false, true⟩ :=
  (C4_cancel_rejects (fun c => decide (c.property = "x"))
    (⟨⟨false, none⟩, [("x", (0 : Nat))]⟩ : OOState String Nat) "x" 1
    (by decide) (by decide)
    (fun _ => true) (⟨⟨true, none⟩, (4 : Nat)⟩ : OVState Nat) 9 (by decide)).2.1

/-- C5: when a nested Observable adopted at property `"p"` flushes a
change, the parent does dispatch one event per flush, but the
adoption handler spreads enqueue-style arguments into `emit`, so the
dispatched MultiChangeEvent's changes array is the raw list
`[p, observable, observable, \x7bobservable: true\x7d]` rather than one
change record attributed to `p`: destructuring gives no `property`
field, the event's values view holds a single undefined-keyed entry,
and its final view is empty, so no subscriber keyed on any property is
notified of the nested change. -/
theorem C5_adoption_emit_malformed :
    fireNestedChange (AdoptState.adopt (AdoptState.empty String) "p" 7) 7 =
      [[.rawKey "p", .rawObs 7, .rawObs 7, .rawTag]] ∧
    eventValues (emitArgProj String)
      [.rawKey "p", .rawObs 7, .rawObs 7, .rawTag] =
      [(none, [none, none, none, none, none])] ∧
    eventFinal (emitArgProj String)
      [.rawKey "p", .rawObs 7, .rawObs 7, .rawTag] = [] ∧
    (∀ q : String,
      alookup (eventFinal (emitArgProj String)
        [.rawKey "p", .rawObs 7, .rawObs 7, .rawTag]) (some q) = none) := by
  refine ⟨by decide, by decide, by decide, fun q => ?_⟩
  have h : eventFinal (emitArgProj String)
      [.rawKey "p", .rawObs 7, .rawObs 7, .rawTag] = [] := by decide
  rw [h]
  rfl

/-- C6: adopting the same nested Observable under two distinct
properties keeps one top-level entry holding a per-property handler
map; disowning one property removes only that property's handler, so a
subsequent change of the nested Observable still produces exactly one
bubbled emit call carrying the remaining property; the top-level entry
is deleted only when the last property is disowned. -/
theorem C6_adoption_refcount {K : Type} [DecidableEq K] (p q : K) (o : Nat)
    (hpq : p ≠ q) :
    (((AdoptState.empty K).adopt p o).adopt q o).nested =
      [(o, [(p, ⟨0, p⟩), (q, ⟨1, q⟩)])] ∧
    ∃ s3, (((AdoptState.empty K).adopt p o).adopt q o).disown p o = .ok s3 ∧
      s3.nested = [(o, [(q, ⟨1, q⟩)])] ∧
      fireNestedChange s3 o = [[.rawKey q, .rawObs o, .rawObs o, .rawTag]] ∧
      ∃ s4, s3.disown q o = .ok s4 ∧ s4.nested = [] := by
  have hqp : q ≠ p := Ne.symm hpq
  have hs2 : ((AdoptState.empty K).adopt p o).adopt q o =
      ⟨[(o, [(p, ⟨0, p⟩), (q, ⟨1, q⟩)])], [(o, ⟨0, p⟩), (o, ⟨1, q⟩)], 2⟩ := by
    simp [AdoptState.empty, AdoptState.adopt, mapSet, alookup, hpq, hqp]
  have hs3 : (⟨[(o, [(p, ⟨0, p⟩), (q, ⟨1, q⟩)])], [(o, ⟨0, p⟩), (o, ⟨1, q⟩)], 2⟩ :
      AdoptState K).disown p o =
      .ok ⟨[(o, [(q, ⟨1, q⟩)])], [(o, ⟨1, q⟩)], 2⟩ := by
    simp [AdoptState.disown, mapSet, mapDelete, alookup, hpq, hqp, List.eraseP_cons]
  have hfire : fireNestedChange
      (⟨[(o, [(q, ⟨1, q⟩)])], [(o, ⟨1, q⟩)], 2⟩ : AdoptState K) o =
      [[.rawKey q, .rawObs o, .rawObs o, .rawTag]] := by
    simp [fireNestedChange]
  have hs4 : (⟨[(o, [(q, ⟨1, q⟩)])], [(o, ⟨1, q⟩)], 2⟩ : AdoptState K).disown q o =
      .ok ⟨[], [], 2⟩ := by
    simp [AdoptState.disown, mapSet, mapDelete, alookup, List.eraseP_cons]
  rw [hs2]
  exact ⟨rfl, ⟨[(o, [(q, ⟨1, q⟩)])], [(o, ⟨1, q⟩)], 2⟩, hs3, rfl, hfire,
    ⟨[], [], 2⟩, hs4, rfl⟩

/-- C6, witness for the refcount theorem at concrete properties "a" and
"b" and nested observable 0. -/
theorem C6_adoption_refcount_witness :
    (((AdoptState.empty String).adopt "a" 0).adopt "b" 0).nested =
      [(0, [("a", ⟨0, "a"⟩), ("b", ⟨1, "b"⟩)])] :=
  (C6_adoption_refcount "a" "b" 0 (by decide)).1

/-- C7, counterexample: the claim asserts that changing `a.value` from 1
to 2 (with `b.value = 10`) notifies a subscriber of the composition
exactly once and that the composed value always equals the combiner of
the sources' values; but after the change drains the subscriber has
received two notifications of 12 (`update` both assigns `this.value`,
whose setter enqueues a second, flushed event, and emits directly), and
immediately after the write, before the microtask queue drains, the
composed value is still 11 while the combiner of the sources gives
12. -/
theorem C7_composition_counterexample :
    compAfterSettle.notes = [some 11] ∧
    compScenario.notes = [some 11, some 12, some 12] ∧
    ¬(compScenario.notes.drop 1).length = 1 ∧
    compMid.cVal = some 11 ∧
    compMid.aVal + compMid.bVal = 12 := by
  decide

/-- C7, amended: `update()` always sets the composed value to the
combiner applied to the sources' current values, and runs eagerly at
construction (initial value 11); in the reference scenario, changing
`a.value` from 1 to 2 updates the composed value to 12 and notifies the
subscriber exactly twice, both times with 12 (once from `update`'s
direct emit and once from the flush of the record enqueued by the
inherited value setter); afterwards, with no further source change, the
microtask queue is empty and draining it any further changes nothing. -/
theorem C7_composition_behavior :
    (∀ s : CompState, (cUpdate s).cVal = some (s.aVal + s.bVal)) ∧
    compInit.cVal = some 11 ∧
    compScenario.cVal = some 12 ∧
    compScenario.notes = [some 11, some 12, some 12] ∧
    compScenario.tasks = [] ∧
    (∀ n : Nat, drainTasks n compScenario = compScenario) := by
  have hdis : ∀ (s : CompState) (chs : List (Change String (Option Int))),
      (dispatchCChange s chs).cVal = s.cVal := by
    intro s chs
    rw [dispatchCChange]
    split
    · split <;> rfl
    · rfl
  have htasks : compScenario.tasks = [] := by decide
  refine ⟨?_, by decide, by decide, by decide, htasks, ?_⟩
  · intro s
    rw [cUpdate, hdis]
  · intro n
    cases n with
    | zero => rfl
    | succ m =>
      rw [drainTasks, htasks]

/-- C8, counterexample: the claim asserts that assigning through the
`proxy("x")` projection always causes exactly one change event
observable from the backend; but assigning the value already stored
(`x = 0` when `x` is `0`) is silently accepted by the set trap without
enqueueing, so the turn dispatches zero events. -/
theorem C8_noop_write_counterexample :
    (pvWriteTurn (fun _ => false)
      (⟨⟨false, none⟩, [("x", (0 : Nat))]⟩ : OOState String Nat) "x" 0).2 = [] ∧
    ¬(pvWriteTurn (fun _ => false)
      (⟨⟨false, none⟩, [("x", (0 : Nat))]⟩ : OOState String Nat) "x" 0).2.length = 1 := by
  decide

/-- C8, amended: reading the projection's value always returns the
backend's currently stored value for the property; assigning a value
different by identity from the stored one (deferred backend, no
pending batch, no cancelling listener) writes it through to the
backend's store, after which reading returns it, and the backend
dispatches exactly one change event, carrying that single change
record. -/
theorem C8_forward_transparency {K V : Type} [DecidableEq K] [DecidableEq V]
    (store : List (K × V)) (p : K) (v : V)
    (hdiff : ¬storeGet store p = some v) :
    (∀ s : OOState K V, ProxiedObservableValue.getValue s p = storeGet s.store p) ∧
    (pvWriteTurn (fun _ => false) (⟨⟨false, none⟩, store⟩ : OOState K V) p v).1.store =
      storeSet store p v ∧
    ProxiedObservableValue.getValue
      (pvWriteTurn (fun _ => false) (⟨⟨false, none⟩, store⟩ : OOState K V) p v).1 p =
      some v ∧
    (pvWriteTurn (fun _ => false) (⟨⟨false, none⟩, store⟩ : OOState K V) p v).2 =
      [[⟨p, storeGet store p, some v, false⟩]] := by
  have hrw := runWrites_deferred [(p, v)] store none
  have hrec : recordedChanges store [(p, v)] = [⟨p, storeGet store p, some v, false⟩] := by
    rw [recordedChanges, if_neg hdiff, recordedChanges]
  have happly : applyWrites store [(p, v)] = storeSet store p v := by
    rw [applyWrites, if_neg hdiff, applyWrites]
  refine ⟨fun s => rfl, ?_, ?_, ?_⟩
  · rw [pvWriteTurn, runTurn_eq, hrw, happly]
  · rw [pvWriteTurn, runTurn_eq, hrw]
    rw [show ProxiedObservableValue.getValue
        (⟨(flushMicrotask (⟨⟨false, appendQueue none (recordedChanges store [(p, v)])⟩,
          applyWrites store [(p, v)]⟩ : OOState K V).core).1,
          applyWrites store [(p, v)]⟩ : OOState K V) p =
        storeGet (applyWrites store [(p, v)]) p from rfl]
    rw [happly, storeGet_storeSet_self]
  · rw [pvWriteTurn, runTurn_eq, hrw, hrec]
    rfl

/-- C8, witness for the amended theorem at a concrete input: backend
store `\x7bx: 0\x7d`, writing `1` through the projection for `"x"`. -/
theorem C8_forward_transparency_witness :
    (pvWriteTurn (fun _ => false)
      (⟨⟨false, none⟩, [("x", (0 : Nat))]⟩ : OOState String Nat) "x" 1).2 =
      [[⟨"x", some 0, some 1, false⟩]] :=
  (C8_forward_transparency [("x", (0 : Nat))] "x" 1 (by decide)).2.2.2

/-- C9: the idempotent-filter half of the claim holds (a notification
whose extracted value is comparator-equal emits nothing and leaves the
tracked value unchanged), and deferred notifications are coalesced into
a single event; but the flush microtask resets `#changedValue` to
`false` before reading it, so the single dispatched event carries
`["value", false]` — neither the first nor the final value of the
window — and, the two-element array not being a change record, the
event's final view is empty, so subscribers keyed on `"value"` are
never notified.  (Scenario: extractor values 0, then 1 and 2 before the
flush, deferred mode, default comparator, truthiness of `Nat` being
nonzero.) -/
theorem C9_element_flush_bug :
    OEState.update (fun n => decide (n ≠ 0)) (fun a b => decide (a = b))
      (⟨false, (0 : Nat), .flagFalse⟩ : OEState Nat) 0 =
      ⟨⟨false, 0, .flagFalse⟩, [], false⟩ ∧
    OEState.update (fun n => decide (n ≠ 0)) (fun a b => decide (a = b))
      (⟨false, (0 : Nat), .flagFalse⟩ : OEState Nat) 1 =
      ⟨⟨false, 1, .val 1⟩, [], true⟩ ∧
    OEState.update (fun n => decide (n ≠ 0)) (fun a b => decide (a = b))
      (⟨false, (1 : Nat), .val 1⟩ : OEState Nat) 2 =
      ⟨⟨false, 2, .val 1⟩, [], false⟩ ∧
    OEState.flushChanged (⟨false, (2 : Nat), .val 1⟩ : OEState Nat) =
      (⟨false, 2, .flagFalse⟩, [[.arr "value" .flagFalse]]) ∧
    eventFinal (oeArgProj Nat) [.arr "value" .flagFalse] = [] := by
  decide

/-- C10: calling `disown` for an Observable that is not currently
adopted dereferences the missing handler bucket and throws a TypeError;
whenever the Observable has an entry in the nested-subscription map
(it was adopted and not yet fully disowned), `disown` completes
normally, so under that precondition the error branch is unreachable. -/
theorem C10_disown_unadopted {K : Type} [DecidableEq K] (s : AdoptState K) (p : K)
    (o : Nat) (hadopted : (alookup s.nested o).isSome = true) :
    (AdoptState.disown (AdoptState.empty String) "p" 7).toOption = none ∧
    ∃ s', s.disown p o = .ok s' := by
  refine ⟨by decide, ?_⟩
  obtain ⟨handlers, hh⟩ := Option.isSome_iff_exists.mp hadopted
  rw [AdoptState.disown, hh]
  split
  · next heq => exact Option.noConfusion heq
  · next handlers2 heq =>
    by_cases hlen : (mapDelete handlers2 p).length = 0
    · exact ⟨_, by simp only [if_pos hlen]; rfl⟩
    · exact ⟨_, by simp only [if_neg hlen]; rfl⟩

/-- C10, witness: a state that has adopted observable 3 at property
"a" can disown it. -/
theorem C10_disown_unadopted_witness :
    ∃ s', ((AdoptState.empty String).adopt "a" 3).disown "a" 3 = .ok s' :=
  (C10_disown_unadopted ((AdoptState.empty String).adopt "a" 3) "a" 3 (by decide)).2

end Skooma
